import Mathlib

/-!
Verification of the todo-store core of `src/index.js` (todo-ai-agent).

The store is a PostgreSQL table
  `todos (id SERIAL PRIMARY KEY, content TEXT NOT NULL, status TEXT DEFAULT 'active')`
operated on by five tool functions: `addTodo`, `deleteTodo`, `searchTodo`,
`restoreTodo`, `readTodo`.  We embed the table as a list of rows plus the
next SERIAL value, SQL `ILIKE` as an executable pattern matcher over
characters (ASCII case folding), and JavaScript `parseInt` as an executable
partial numeric-prefix parser.
-/

/-- Row status: the `status` column takes only the two values `'active'`
(the column default) and `'deleted'` that the code ever writes. -/
inductive Status where
  | active
  | deleted
deriving DecidableEq

/-- One row of the `todos` table. -/
structure Todo where
  id : Nat
  content : String
  status : Status
deriving DecidableEq

/-- The `todos` table: its rows in insertion order plus the next value of
the `id` SERIAL sequence. -/
structure TodoTable where
  rows : List Todo
  nextId : Nat
deriving DecidableEq

/-- The freshly created table (`CREATE TABLE IF NOT EXISTS todos ...`):
no rows, SERIAL starts at 1. -/
def initTable : TodoTable := { rows := [], nextId := 1 }

/-- All suffixes of a character list (including the list itself and `[]`),
used to give SQL `%` its "matches any sequence" meaning. -/
def suffixes : List Char → List (List Char)
  | [] => [[]]
  | c :: cs => (c :: cs) :: suffixes cs

/-- SQL `ILIKE` pattern matching over character lists (ASCII case folding
via `Char.toLower`): `%` matches any sequence (some suffix continuation),
`_` matches any single character, `\` escapes the next pattern character,
and every other character matches itself case-insensitively.  A pattern
ending in a bare `\` is a PostgreSQL error; it is unreachable from the
patterns `%keyword%` this program builds and is modelled as no match. -/
def likeMatch : List Char → List Char → Bool
  | [], cs => cs.isEmpty
  | p :: ps, cs =>
    if p = '%' then
      (suffixes cs).any (fun t => likeMatch ps t)
    else if p = '\\' then
      match ps, cs with
      | x :: ps', c :: cs' => (x.toLower == c.toLower) && likeMatch ps' cs'
      | _, _ => false
    else
      match cs with
      | c :: cs' =>
          (if p = '_' then true else p.toLower == c.toLower) && likeMatch ps cs'
      | [] => false

/-- The WHERE-clause predicate `content ILIKE '%' || keyword || '%'` built
by `deleteTodo`, `searchTodo` and `restoreTodo` (the keyword is spliced
into the pattern unescaped, exactly as in the code). -/
def ilikeContains (keyword content : String) : Bool :=
  likeMatch ('%' :: (keyword.data ++ ['%'])) content.data

/-- JavaScript whitespace skipped by `parseInt` (space, tab, LF, VT, FF, CR). -/
def isJsSpace (c : Char) : Bool :=
  c.toNat == 32 || c.toNat == 9 || c.toNat == 10 ||
    c.toNat == 11 || c.toNat == 12 || c.toNat == 13

/-- Decimal digit `0`..`9`. -/
def isDigitChar (c : Char) : Bool :=
  48 ≤ c.toNat && c.toNat ≤ 57

/-- Hexadecimal digit `0`..`9`, `a`..`f`, `A`..`F`. -/
def isHexDigitChar (c : Char) : Bool :=
  isDigitChar c || (97 ≤ c.toLower.toNat && c.toLower.toNat ≤ 102)

/-- Numeric value of a hexadecimal digit. -/
def hexDigitVal (c : Char) : Nat :=
  if isDigitChar c then c.toNat - 48 else c.toLower.toNat - 97 + 10

/-- Drop leading JavaScript whitespace. -/
def skipWs : List Char → List Char
  | [] => []
  | c :: cs => if isJsSpace c then skipWs cs else c :: cs

/-- Longest decimal-digit prefix, as a number; `none` when there is no
leading digit (JavaScript `NaN`). -/
def decDigits (cs : List Char) : Option Nat :=
  let ds := cs.takeWhile isDigitChar
  if ds.isEmpty then none
  else some (ds.foldl (fun acc c => 10 * acc + (c.toNat - 48)) 0)

/-- Longest hexadecimal-digit prefix, as a number; `none` when there is no
leading hex digit. -/
def hexDigits (cs : List Char) : Option Nat :=
  let ds := cs.takeWhile isHexDigitChar
  if ds.isEmpty then none
  else some (ds.foldl (fun acc c => 16 * acc + hexDigitVal c) 0)

/-- Magnitude part of JavaScript `parseInt` with no radix argument: a
leading `0x`/`0X` selects hexadecimal, otherwise the longest decimal-digit
prefix is taken. -/
def jsParseIntMag (cs : List Char) : Option Nat :=
  match cs with
  | c0 :: c1 :: rest =>
      if c0 = '0' ∧ (c1 = 'x' ∨ c1 = 'X') then hexDigits rest
      else decDigits (c0 :: c1 :: rest)
  | _ => decDigits cs

/-- JavaScript `parseInt(s)` (no radix argument): skip leading whitespace,
an optional sign, then the magnitude; `none` models `NaN`. -/
def jsParseInt (s : String) : Option Int :=
  match skipWs s.data with
  | [] => none
  | c :: cs =>
    if c = '-' then (jsParseIntMag cs).map (fun n => -(n : Int))
    else if c = '+' then (jsParseIntMag cs).map (fun n => (n : Int))
    else (jsParseIntMag (c :: cs)).map (fun n => (n : Int))

/-- `add_todo`: `INSERT INTO todos (content) VALUES ($1)` — appends a row
with the next SERIAL id and the default status `'active'`. -/
def addTodo (content : String) (t : TodoTable) : TodoTable :=
  { rows := t.rows ++ [{ id := t.nextId, content := content, status := Status.active }],
    nextId := t.nextId + 1 }

/-- `delete_todo`: `UPDATE todos SET status='deleted' WHERE content ILIKE
'%'||kw||'%' RETURNING *`.  Note the WHERE clause has no status filter:
every row whose content matches is updated and counted, whatever its
current status.  Returns the `rowCount` and the new table. -/
def deleteTodo (keyword : String) (t : TodoTable) : Nat × TodoTable :=
  (t.rows.countP (fun r => ilikeContains keyword r.content),
   { t with rows := t.rows.map (fun r =>
       if ilikeContains keyword r.content then { r with status := Status.deleted } else r) })

/-- `restore_todo`: `UPDATE todos SET status='active' WHERE content ILIKE
'%'||kw||'%' AND status='deleted' RETURNING *`.  Returns the `rowCount`
and the new table. -/
def restoreTodo (keyword : String) (t : TodoTable) : Nat × TodoTable :=
  (t.rows.countP (fun r => ilikeContains keyword r.content && r.status == Status.deleted),
   { t with rows := t.rows.map (fun r =>
       if ilikeContains keyword r.content && r.status == Status.deleted
       then { r with status := Status.active } else r) })

/-- `search_todo`: `parseInt` the argument; on a number, `SELECT * FROM
todos WHERE id=$1` (no status filter); otherwise `SELECT * FROM todos
WHERE content ILIKE '%'||kw||'%' AND status='active'`.  Returns the result
rows; the table is not modified. -/
def searchTodo (keywordOrId : String) (t : TodoTable) : List Todo :=
  match jsParseInt keywordOrId with
  | some n => t.rows.filter (fun r => ((r.id : Int) == n))
  | none => t.rows.filter (fun r =>
      ilikeContains keywordOrId r.content && r.status == Status.active)

/-- Comparison used to embed `ORDER BY id DESC`: `todoGE a b` holds when
`a` may come before `b`, i.e. `a`'s id is at least `b`'s. -/
def todoGE (a b : Todo) : Prop := b.id ≤ a.id

instance : DecidableRel todoGE := fun a b => Nat.decLe b.id a.id

instance : IsTotal Todo todoGE := ⟨fun a b => Nat.le_total b.id a.id⟩

instance : IsTrans Todo todoGE := ⟨fun _ _ _ h1 h2 => Nat.le_trans h2 h1⟩

/-- `read_todo`: `SELECT * FROM todos [WHERE status='active'] ORDER BY id
DESC` — the active-only filter is applied exactly when `showAll` is false,
and the result is sorted by descending id. -/
def readTodo (showAll : Bool) (t : TodoTable) : List Todo :=
  if showAll then List.insertionSort todoGE t.rows
  else List.insertionSort todoGE (t.rows.filter (fun r => r.status == Status.active))

/-- Table states reachable from the fresh table through the store's
mutating operations (search and read do not write). -/
inductive Reachable : TodoTable → Prop where
  | init : Reachable initTable
  | add (c : String) {t : TodoTable} : Reachable t → Reachable (addTodo c t)
  | del (k : String) {t : TodoTable} : Reachable t → Reachable (deleteTodo k t).2
  | res (k : String) {t : TodoTable} : Reachable t → Reachable (restoreTodo k t).2

/-- Modelled from the spec: a "purely numeric" query string — non-empty
and consisting only of decimal digits. -/
def isPureNumeric (s : String) : Bool :=
  !s.data.isEmpty && s.data.all isDigitChar

/-- Modelled from the spec: a keyword containing none of the `ILIKE`
metacharacters `%`, `_`, `\`. -/
def noSpecial (k : String) : Bool :=
  k.data.all (fun c => !(c == '%' || c == '_' || c == '\\'))

/-! ### Helper lemmas -/

/-- Membership in `suffixes` is exactly the suffix relation. -/
theorem mem_suffixes {t cs : List Char} : t ∈ suffixes cs ↔ t <:+ cs := by
  induction cs with
  | nil => simp [suffixes]
  | cons c cs ih =>
    simp only [suffixes, List.mem_cons, ih, List.suffix_cons_iff]

/-- A pattern starting with `%` matches a string iff the rest of the
pattern matches some suffix of the string. -/
theorem likeMatch_pct {ps cs : List Char} :
    likeMatch ('%' :: ps) cs = true ↔ ∃ t, t <:+ cs ∧ likeMatch ps t = true := by
  rw [likeMatch.eq_def]
  simp only [reduceIte, List.any_eq_true, mem_suffixes]
theorem likeMatch_lit_pct (p : List Char) (hp : ∀ x ∈ p, ¬(x = '%' ∨ x = '_' ∨ x = '\\')) :
    ∀ cs : List Char, (likeMatch (p ++ ['%']) cs = true ↔
      p.map Char.toLower <+: cs.map Char.toLower) := by
  induction p with
  | nil =>
    intro cs
    simp only [List.nil_append, List.map_nil, List.nil_prefix, iff_true]
    rw [likeMatch_pct]
    exact ⟨[], List.nil_suffix, rfl⟩
  | cons x p ih =>
    intro cs
    have hx := hp x (List.mem_cons_self x p)
    have hx1 : ¬ x = '%' := fun h => hx (Or.inl h)
    have hx2 : ¬ x = '_' := fun h => hx (Or.inr (Or.inl h))
    have hx3 : ¬ x = '\\' := fun h => hx (Or.inr (Or.inr h))
    have ih' := ih (fun y hy => hp y (List.mem_cons_of_mem x hy))
    cases cs with
    | nil =>
      rw [List.cons_append, likeMatch.eq_def]
      simp [hx1, hx2, hx3]
    | cons c cs' =>
      rw [List.cons_append, likeMatch.eq_def]
      simp only [if_neg hx1, if_neg hx3, if_neg hx2, List.map_cons,
        List.cons_prefix_cons, Bool.and_eq_true, beq_iff_eq, ih' cs']

/-- Transport of "some suffix's image has the given prefix" across `map`:
it says exactly that the prefix is an infix of the image of the whole. -/
theorem suffix_prefix_map_iff (f : Char → Char) (pm cs : List Char) :
    (∃ t, t <:+ cs ∧ pm <+: t.map f) ↔ pm <:+: cs.map f := by
  constructor
  · rintro ⟨t, hts, hpt⟩
    exact List.infix_iff_prefix_suffix.mpr ⟨t.map f, hpt, hts.map f⟩
  · intro h
    rcases List.infix_iff_prefix_suffix.mp h with ⟨T, hpT, hTs⟩
    refine ⟨cs.drop (cs.length - T.length), List.drop_suffix _ _, ?_⟩
    have hT : T = (cs.map f).drop ((cs.map f).length - T.length) :=
      List.suffix_iff_eq_drop.mp hTs
    have hlen : (cs.map f).length = cs.length := List.length_map _ _
    rw [List.map_drop, ← hlen]
    exact hT ▸ hpT

theorem orderedInsert_all_ge (a : Todo) (m : List Todo) (h : ∀ y ∈ m, todoGE a y) :
    List.orderedInsert todoGE a m = a :: m := by
  cases m with
  | nil => rfl
  | cons y m' =>
    simp only [List.orderedInsert]
    rw [if_pos (h y (List.mem_cons_self y m'))]

theorem filter_orderedInsert (p : Todo → Bool) (a : Todo) :
    ∀ l : List Todo, List.Sorted todoGE l →
      (List.orderedInsert todoGE a l).filter p =
        if p a then List.orderedInsert todoGE a (l.filter p) else l.filter p := by
  intro l
  induction l with
  | nil =>
    intro _
    by_cases hpa : p a <;> simp [List.orderedInsert, hpa]
  | cons x l ih =>
    intro hs
    have hsl : List.Sorted todoGE l := hs.of_cons
    by_cases hax : todoGE a x
    · simp only [List.orderedInsert, if_pos hax]
      by_cases hpa : p a
      · have hge : ∀ y ∈ (x :: l).filter p, todoGE a y := by
          intro y hy
          rcases List.mem_cons.mp (List.mem_of_mem_filter hy) with rfl | hyl
          · exact hax
          · exact Nat.le_trans (List.rel_of_sorted_cons hs y hyl) hax
        rw [List.filter_cons_of_pos hpa, if_pos hpa, orderedInsert_all_ge a _ hge]
      · rw [List.filter_cons_of_neg hpa, if_neg hpa]
    · simp only [List.orderedInsert, if_neg hax]
      by_cases hpx : p x
      · rw [List.filter_cons_of_pos hpx, List.filter_cons_of_pos hpx, ih hsl]
        by_cases hpa : p a
        · rw [if_pos hpa, if_pos hpa]
          simp only [List.orderedInsert, if_neg hax]
        · rw [if_neg hpa, if_neg hpa]
      · rw [List.filter_cons_of_neg hpx, List.filter_cons_of_neg hpx, ih hsl]

theorem filter_insertionSort (p : Todo → Bool) (l : List Todo) :
    (List.insertionSort todoGE l).filter p = List.insertionSort todoGE (l.filter p) := by
  induction l with
  | nil => rfl
  | cons a l ih =>
    simp only [List.insertionSort]
    rw [filter_orderedInsert p a _ (List.sorted_insertionSort todoGE l)]
    by_cases hpa : p a
    · rw [if_pos hpa, List.filter_cons_of_pos hpa]
      simp only [List.insertionSort, ih]
    · rw [if_neg hpa, List.filter_cons_of_neg hpa, ih]

theorem length_filter_eq_le_one {α β : Type} [DecidableEq β] (f : α → β) (c : β) :
    ∀ l : List α, (l.map f).Nodup → (l.filter (fun a => f a == c)).length ≤ 1 := by
  intro l
  induction l with
  | nil => intro _; simp
  | cons a l ih =>
    intro h
    rw [List.map_cons, List.nodup_cons] at h
    by_cases hfa : (f a == c) = true
    · rw [List.filter_cons_of_pos (p := fun a => f a == c) hfa]
      have hnil : l.filter (fun a => f a == c) = [] := by
        rw [List.filter_eq_nil_iff]
        intro b hb hbc
        exact h.1 (List.mem_map.mpr ⟨b, hb,
          (beq_iff_eq.mp hbc).trans (beq_iff_eq.mp hfa).symm⟩)
      rw [hnil]
      simp
    · rw [List.filter_cons_of_neg (p := fun a => f a == c) hfa]
      exact ih h.2

theorem digit_not_space (c : Char) (h : isDigitChar c = true) : isJsSpace c = false := by
  simp only [isDigitChar, Bool.and_eq_true, decide_eq_true_eq] at h
  simp only [isJsSpace, Bool.or_eq_false_iff, beq_eq_false_iff_ne, ne_eq]
  omega

theorem jsParseIntMag_digits (d : Char) (ds : List Char)
    (h : ∀ c ∈ d :: ds, isDigitChar c = true) :
    jsParseIntMag (d :: ds) = decDigits (d :: ds) := by
  cases ds with
  | nil => rfl
  | cons e ds' =>
    show (if d = '0' ∧ (e = 'x' ∨ e = 'X') then hexDigits ds'
          else decDigits (d :: e :: ds')) = decDigits (d :: e :: ds')
    rw [if_neg]
    rintro ⟨-, hx⟩
    have he := h e (List.mem_cons_of_mem d (List.mem_cons_self e ds'))
    rcases hx with rfl | rfl <;> revert he <;> decide

theorem decDigits_all (d : Char) (ds : List Char)
    (h : isDigitChar d = true) : ∃ m : Nat, decDigits (d :: ds) = some m := by
  simp only [decDigits, List.takeWhile_cons, h, if_true, List.isEmpty_cons,
    Bool.false_eq_true, if_false]
  exact ⟨_, rfl⟩

theorem jsParseInt_pure (q : String) (h : isPureNumeric q = true) :
    ∃ n : Int, jsParseInt q = some n := by
  rcases hq : q.data with - | ⟨d, ds⟩
  · rw [isPureNumeric, hq] at h
    simp at h
  · have hall : ∀ c ∈ d :: ds, isDigitChar c = true := by
      rw [isPureNumeric, hq] at h
      rcases Bool.and_eq_true_iff.mp h with ⟨-, h2⟩
      exact fun c hc => List.all_eq_true.mp h2 c hc
    have hd := hall d (List.mem_cons_self d ds)
    have hskip : skipWs (d :: ds) = d :: ds := by
      simp [skipWs, digit_not_space d hd]
    have hd1 : ¬ d = '-' := fun hd' => by subst hd'; revert hd; decide
    have hd2 : ¬ d = '+' := fun hd' => by subst hd'; revert hd; decide
    obtain ⟨m, hm⟩ := decDigits_all d ds hd
    refine ⟨(m : Int), ?_⟩
    unfold jsParseInt
    rw [hq, hskip]
    show (if d = '-' then (jsParseIntMag ds).map (fun n => -(n : Int))
          else if d = '+' then (jsParseIntMag ds).map (fun n => (n : Int))
          else (jsParseIntMag (d :: ds)).map (fun n => (n : Int))) = some (m : Int)
    rw [if_neg hd1, if_neg hd2, jsParseIntMag_digits d ds hall, hm]
    rfl

/-! ### Claim theorems -/

/-- C1 (counterexample): the table's single row already has status
`deleted` and its content matches the keyword, so no `active` row matches;
the claim demands `Delete` return 0, but the code's `UPDATE` has no status
filter and reports `rowCount = 1`. -/
theorem delete_counts_already_deleted_cex :
    (deleteTodo "a" ⟨[⟨1, "a", Status.deleted⟩], 2⟩).1 = 1 := by decide

/-- C1 (amended): `Delete(k)` sets `status = deleted` on every row whose
content matches the keyword pattern regardless of its current status,
returns the count of all matching rows (rows already `deleted` are
re-counted), and returns 0 exactly when no row at all matches; ids,
contents and the order and number of rows are untouched. -/
theorem delete_marks_and_counts_all_matches (k : String) (t : TodoTable) :
    (deleteTodo k t).1 = t.rows.countP (fun r => ilikeContains k r.content)
    ∧ ((deleteTodo k t).1 = 0 ↔ ∀ r ∈ t.rows, ilikeContains k r.content = false)
    ∧ List.Forall₂ (fun r r' => r'.id = r.id ∧ r'.content = r.content ∧
        r'.status = (if ilikeContains k r.content = true then Status.deleted else r.status))
        t.rows (deleteTodo k t).2.rows := by
  refine ⟨rfl, ?_, ?_⟩
  · rw [show (deleteTodo k t).1 = t.rows.countP (fun r => ilikeContains k r.content) from rfl,
      List.countP_eq_zero]
    constructor
    · intro h r hr
      exact Bool.not_eq_true _ ▸ (h r hr)
    · intro h r hr
      rw [h r hr]
      simp
  · show List.Forall₂ _ t.rows (t.rows.map _)
    rw [List.forall₂_map_right_iff, List.forall₂_same]
    intro r _
    by_cases hb : ilikeContains k r.content = true
    · simp [hb]
    · simp [hb]

/-- C1 (witness): applying the amended theorem at a keyword that matches
no row of a concrete table. -/
theorem delete_marks_and_counts_all_matches_witness :
    (deleteTodo "zz" ⟨[⟨1, "a", Status.active⟩], 2⟩).1 = 0 :=
  (delete_marks_and_counts_all_matches "zz" ⟨[⟨1, "a", Status.active⟩], 2⟩).2.1.mpr
    (by decide)

/-- C2 (counterexample): after `Delete("a")` deletes the only row, running
`Delete("a")` again returns 1 — not 0 as the claim states — because the
row, now `deleted`, still matches the status-less WHERE clause. -/
theorem delete_rerun_not_zero_cex :
    (deleteTodo "a" (deleteTodo "a" ⟨[⟨1, "a", Status.active⟩], 2⟩).2).1 = 1 := by
  decide

/-- C2 (amended): re-running `Delete(k)` immediately after returns the
same count as the first run (matching is by content only, which delete
does not change), so it returns 0 only when the first run did. -/
theorem delete_rerun_same_count (k : String) (t : TodoTable) :
    (deleteTodo k (deleteTodo k t).2).1 = (deleteTodo k t).1 := by
  show ((t.rows.map _).countP _) = t.rows.countP _
  rw [List.countP_map]
  have hpf : ((fun r : Todo => ilikeContains k r.content) ∘
      (fun r : Todo => if ilikeContains k r.content then { r with status := Status.deleted } else r))
      = (fun r : Todo => ilikeContains k r.content) := by
    funext r
    by_cases hb : ilikeContains k r.content = true <;> simp [hb]
  rw [hpf]

/-- C3 (confirmed): `Restore(k)` transitions to `active` exactly the rows
that are currently `deleted` and whose content matches the keyword; rows
already `active` are never touched; and when every matching row is already
`active` it returns 0 and leaves the table unchanged. -/
theorem restore_only_deleted_matches (k : String) (t : TodoTable) :
    (restoreTodo k t).1
        = t.rows.countP (fun r => ilikeContains k r.content && r.status == Status.deleted)
    ∧ List.Forall₂ (fun r r' => r'.id = r.id ∧ r'.content = r.content ∧
        r'.status = (if ilikeContains k r.content = true ∧ r.status = Status.deleted
                     then Status.active else r.status))
        t.rows (restoreTodo k t).2.rows
    ∧ ((∀ r ∈ t.rows, ilikeContains k r.content = true → r.status = Status.active) →
        (restoreTodo k t).1 = 0 ∧ (restoreTodo k t).2 = t) := by
  refine ⟨rfl, ?_, ?_⟩
  · show List.Forall₂ _ t.rows (t.rows.map _)
    rw [List.forall₂_map_right_iff, List.forall₂_same]
    intro r _
    by_cases h1 : ilikeContains k r.content = true
    · by_cases h2 : r.status = Status.deleted
      · simp [h1, h2]
      · simp [h1, h2]
    · simp [h1]
  · intro hact
    have hzero : (restoreTodo k t).1 = 0 := by
      show t.rows.countP _ = 0
      rw [List.countP_eq_zero]
      intro r hr hp
      rcases Bool.and_eq_true_iff.mp hp with ⟨hm, hst⟩
      have := hact r hr hm
      rw [this] at hst
      exact absurd (beq_iff_eq.mp hst) (by decide)
    refine ⟨hzero, ?_⟩
    have hrows : t.rows.map (fun r =>
        if ilikeContains k r.content && r.status == Status.deleted
        then { r with status := Status.active } else r) = t.rows := by
      have hid : ∀ r ∈ t.rows, (if ilikeContains k r.content && r.status == Status.deleted
          then { r with status := Status.active } else r) = id r := by
        intro r hr
        rw [if_neg]
        · rfl
        · intro hp
          rcases Bool.and_eq_true_iff.mp hp with ⟨hm, hst⟩
          have := hact r hr hm
          rw [this] at hst
          exact absurd (beq_iff_eq.mp hst) (by decide)
      rw [List.map_congr_left hid, List.map_id]
    show { t with rows := t.rows.map _ } = t
    rw [hrows]

/-- C3 (witness): restoring on a table whose only matching row is already
active returns 0 and leaves the table unchanged. -/
theorem restore_only_deleted_matches_witness :
    (restoreTodo "milk" ⟨[⟨1, "milk", Status.active⟩], 2⟩).1 = 0
    ∧ (restoreTodo "milk" ⟨[⟨1, "milk", Status.active⟩], 2⟩).2
        = ⟨[⟨1, "milk", Status.active⟩], 2⟩ :=
  (restore_only_deleted_matches "milk" ⟨[⟨1, "milk", Status.active⟩], 2⟩).2.2
    (by decide)

/-- C4 (confirmed): a purely numeric query always parses under
JavaScript `parseInt`, `Search` then looks rows up by exact id whatever
their status, and — ids being a primary key (pairwise distinct) — at most
one row is returned. -/
theorem search_numeric_id_lookup (q : String) (t : TodoTable)
    (hq : isPureNumeric q = true) (hids : (t.rows.map Todo.id).Nodup) :
    ∃ n : Int, jsParseInt q = some n
      ∧ (∀ r ∈ t.rows, (r ∈ searchTodo q t ↔ (r.id : Int) = n))
      ∧ (searchTodo q t).length ≤ 1 := by
  obtain ⟨n, hn⟩ := jsParseInt_pure q hq
  have hs : searchTodo q t = t.rows.filter (fun r => ((r.id : Int) == n)) := by
    unfold searchTodo
    rw [hn]
  refine ⟨n, hn, ?_, ?_⟩
  · intro r hr
    rw [hs, List.mem_filter]
    simp [hr]
  · rw [hs]
    have h1 : (t.rows.map (fun r : Todo => (r.id : Int))).Nodup := by
      have h2 := hids.map (f := fun m : Nat => (m : Int)) (fun a b hab => by simpa using hab)
      simpa [List.map_map, Function.comp] using h2
    exact length_filter_eq_le_one (fun r : Todo => (r.id : Int)) n t.rows h1

/-- C4 (witness): searching the purely numeric query "2" in a table whose
distinct-id rows include a deleted row with id 2 returns at most one row. -/
theorem search_numeric_id_lookup_witness :
    (searchTodo "2" ⟨[⟨2, "a", Status.deleted⟩, ⟨1, "b", Status.active⟩], 3⟩).length ≤ 1 := by
  obtain ⟨n, hn, hmem, hlen⟩ := search_numeric_id_lookup "2"
    ⟨[⟨2, "a", Status.deleted⟩, ⟨1, "b", Status.active⟩], 3⟩ (by decide) (by decide)
  exact hlen

/-- C5 (confirmed): when the query does not parse as an integer, every row
`Search` returns has status `active` (no deleted row is ever surfaced),
and when nothing matches the result is the empty list, not an error. -/
theorem search_nonnumeric_only_active (q : String) (t : TodoTable)
    (h : jsParseInt q = none) :
    (∀ r ∈ searchTodo q t, r.status = Status.active)
    ∧ ((∀ r ∈ t.rows, ¬(ilikeContains q r.content = true ∧ r.status = Status.active)) →
        searchTodo q t = []) := by
  have hs : searchTodo q t = t.rows.filter (fun r =>
      ilikeContains q r.content && r.status == Status.active) := by
    unfold searchTodo
    rw [h]
  constructor
  · intro r hr
    rw [hs, List.mem_filter] at hr
    rcases Bool.and_eq_true_iff.mp hr.2 with ⟨-, hst⟩
    exact beq_iff_eq.mp hst
  · intro hnone
    rw [hs, List.filter_eq_nil_iff]
    intro r hr hp
    rcases Bool.and_eq_true_iff.mp hp with ⟨hm, hst⟩
    exact hnone r hr ⟨hm, beq_iff_eq.mp hst⟩

/-- C5 (witness): the non-numeric query "milk" on a table whose only
matching row is deleted yields the empty result. -/
theorem search_nonnumeric_only_active_witness :
    searchTodo "milk" ⟨[⟨1, "milk", Status.deleted⟩], 2⟩ = [] :=
  (search_nonnumeric_only_active "milk" ⟨[⟨1, "milk", Status.deleted⟩], 2⟩
    (by decide)).2 (by decide)

/-- C6 (counterexample): the keyword "_" is not a substring of "x", yet
the match predicate the three keyword operations use accepts it — `_` in
the keyword acts as the ILIKE single-character wildcard, not literally —
so `delete_todo("_")` deletes (and counts) the row with content "x". -/
theorem ilike_wildcard_not_substring_cex :
    ilikeContains "_" "x" = true
    ∧ ¬ (("_".data.map Char.toLower) <:+: ("x".data.map Char.toLower))
    ∧ (deleteTodo "_" ⟨[⟨1, "x", Status.active⟩], 2⟩).1 = 1 := by
  refine ⟨by decide, by decide, by decide⟩

/-- C6 (amended): the match predicate is ILIKE matching of the pattern
`%keyword%`, in which `%`, `_` and `\` in the keyword keep their pattern
meaning; for keywords containing none of those metacharacters it coincides
exactly with case-insensitive substring containment. -/
theorem ilike_literal_keyword_substring (k c : String) (h : noSpecial k = true) :
    ilikeContains k c = true ↔ (k.data.map Char.toLower) <:+: (c.data.map Char.toLower) := by
  have hp : ∀ x ∈ k.data, ¬(x = '%' ∨ x = '_' ∨ x = '\\') := by
    intro x hx hor
    have hall := List.all_eq_true.mp h x hx
    rcases hor with rfl | rfl | rfl <;> revert hall <;> decide
  rw [ilikeContains, likeMatch_pct, ← suffix_prefix_map_iff Char.toLower]
  exact exists_congr fun t => and_congr_right fun _ => likeMatch_lit_pct k.data hp t

/-- C6 (witness): for the metacharacter-free keyword "MILK", matching
against "buy milk" is exactly case-insensitive substring containment. -/
theorem ilike_literal_keyword_substring_witness :
    ilikeContains "MILK" "buy milk" = true :=
  (ilike_literal_keyword_substring "MILK" "buy milk" (by decide)).mpr (by decide)

/-- C7 (counterexample): on a table whose rows are all active, the
filtered listing equals the full listing, so `List(false)` is not a
STRICT subset of `List(true)` for every table state. -/
theorem readTodo_strict_subset_cex :
    readTodo false ⟨[⟨1, "a", Status.active⟩], 2⟩
      = readTodo true ⟨[⟨1, "a", Status.active⟩], 2⟩ := by decide

/-- C7 (amended): `List(false)` is exactly `List(true)` filtered to
`active` rows — hence a subset, though not strict when no row is deleted —
and both listings are sorted by descending id. -/
theorem readTodo_filter_sorted (t : TodoTable) :
    readTodo false t = (readTodo true t).filter (fun r => r.status == Status.active)
    ∧ readTodo false t ⊆ readTodo true t
    ∧ List.Sorted todoGE (readTodo false t)
    ∧ List.Sorted todoGE (readTodo true t) := by
  have hf : readTodo false t
      = List.insertionSort todoGE (t.rows.filter (fun r => r.status == Status.active)) := rfl
  have ht : readTodo true t = List.insertionSort todoGE t.rows := rfl
  have h1 : readTodo false t
      = (readTodo true t).filter (fun r => r.status == Status.active) := by
    rw [hf, ht, filter_insertionSort]
  refine ⟨h1, ?_, ?_, ?_⟩
  · rw [h1]
    exact List.filter_subset' _
  · rw [hf]
    exact List.sorted_insertionSort todoGE _
  · rw [ht]
    exact List.sorted_insertionSort todoGE _

/-- C7 (witness): the two listings of a concrete two-row table, one row
deleted: the filtered listing keeps exactly the active row. -/
theorem readTodo_filter_sorted_witness :
    readTodo false ⟨[⟨1, "a", Status.active⟩, ⟨2, "b", Status.deleted⟩], 3⟩
      = [⟨1, "a", Status.active⟩] := by
  rw [(readTodo_filter_sorted ⟨[⟨1, "a", Status.active⟩, ⟨2, "b", Status.deleted⟩], 3⟩).1]
  decide

/-- C8 (counterexample): the add tool's schema accepts any string, the
empty string included, so a table state holding a row with empty content
is reachable in one step from the fresh table. -/
theorem add_empty_content_reachable_cex :
    ∃ t, Reachable t ∧ ∃ r ∈ t.rows, r.content = "" :=
  ⟨addTodo "" initTable, Reachable.add "" Reachable.init,
    ⟨1, "", Status.active⟩, by decide, rfl⟩

/-- C8 (amended): `Add` accepts any content string — empty or not — and
inserts a row carrying exactly that content, with status `active` and the
table's next SERIAL id. -/
theorem add_any_content (c : String) (t : TodoTable) :
    ∃ r ∈ (addTodo c t).rows, r.content = c ∧ r.status = Status.active ∧ r.id = t.nextId :=
  ⟨⟨t.nextId, c, Status.active⟩, by simp [addTodo], rfl, rfl, rfl⟩

/-- C9 (confirmed): no operation removes a row or changes an id or a
content: delete and restore keep the row list's length, order, ids and
contents (only status changes), and add appends one new row after the
untouched existing rows.  Search and read take the table and return only
result rows, so they cannot modify it. -/
theorem ops_preserve_id_content (k kw c : String) (t : TodoTable) :
    (deleteTodo k t).2.rows.map (fun r => (r.id, r.content))
        = t.rows.map (fun r => (r.id, r.content))
    ∧ (restoreTodo kw t).2.rows.map (fun r => (r.id, r.content))
        = t.rows.map (fun r => (r.id, r.content))
    ∧ (addTodo c t).rows.map (fun r => (r.id, r.content))
        = t.rows.map (fun r => (r.id, r.content)) ++ [(t.nextId, c)] := by
  refine ⟨?_, ?_, ?_⟩
  · show (t.rows.map _).map _ = _
    rw [List.map_map]
    apply List.map_congr_left
    intro r _
    by_cases hb : ilikeContains k r.content = true <;> simp [hb]
  · show (t.rows.map _).map _ = _
    rw [List.map_map]
    apply List.map_congr_left
    intro r _
    by_cases hb : ilikeContains kw r.content = true ∧ r.status = Status.deleted <;>
      simp [hb]
  · show (t.rows ++ _).map _ = _
    rw [List.map_append]
    rfl

/-- C10 (confirmed): whenever `parseInt` succeeds on the query — in
particular on strings like "3 apples" whose leading characters parse even
though the whole string is not numeric — `Search` takes the id-lookup
path: a row is returned exactly when its id equals the parsed value, its
content never being consulted. -/
theorem search_numeric_prefix_id_path (q : String) (n : Int) (t : TodoTable)
    (h : jsParseInt q = some n) :
    ∀ r ∈ t.rows, (r ∈ searchTodo q t ↔ (r.id : Int) = n) := by
  have hs : searchTodo q t = t.rows.filter (fun r => ((r.id : Int) == n)) := by
    unfold searchTodo
    rw [h]
  intro r hr
  rw [hs, List.mem_filter]
  simp [hr]

/-- C10 (witness): "3 apples" is not purely numeric yet parses to 3, and
search with it surfaces the deleted row with id 3 (a text search would
never return a deleted row), confirming the id-lookup path was taken. -/
theorem search_numeric_prefix_id_path_witness :
    jsParseInt "3 apples" = some 3
    ∧ isPureNumeric "3 apples" = false
    ∧ (⟨3, "eat apples", Status.deleted⟩ : Todo)
        ∈ searchTodo "3 apples" ⟨[⟨3, "eat apples", Status.deleted⟩], 4⟩ :=
  ⟨by decide, by decide,
    (search_numeric_prefix_id_path "3 apples" 3 ⟨[⟨3, "eat apples", Status.deleted⟩], 4⟩
      (by decide) ⟨3, "eat apples", Status.deleted⟩ (by decide)).mpr (by decide)⟩
